import Mathlib

/-!
Shallow embedding of `src/renderer/versions.ts` (electron-fiddle version
catalog management).  JavaScript objects are modelled by a single structural
record type carrying every field the code reads; `undefined`/`null` string
fields are `Option.none`, and JavaScript truthiness of a nullable string is
`jsTruthy` (`none` and `""` are falsy).  `localStorage` is modelled by an
explicit `Store` with one slot per key the module touches; a slot holds the
result of `getItem` followed by `JSON.parse`: absent (`null`), the empty
string (falsy, never parsed), a non-empty string that fails to parse, or a
successfully parsed array of record objects.  `JSON.stringify` of a list of
record objects followed by `JSON.parse` is the identity on this model, so
`setItem(key, JSON.stringify(vs))` stores `StoredVal.parsed vs`.  JSON `null`
elements inside a parsed array are outside the model (every element is an
object).
-/

namespace Fiddle

/-- JavaScript truthiness of a nullable string: `null`/`undefined` and the
empty string are falsy. -/
def jsTruthy : Option String → Bool
  | none => false
  | some s => s != ""

/-- JavaScript `x || d` for a nullable string `x` and string default `d`. -/
def jsOr (o : Option String) (d : String) : String :=
  if jsTruthy o then o.getD "" else d

/-- Provenance tag (`ElectronVersionSource` in `src/interfaces`, not under
`src/`).  Modelled from the spec: `source: {remote, local}`.  The TypeScript
member `local` is a Lean keyword, hence `localSrc`. -/
inductive ElectronVersionSource
  | remote
  | localSrc
deriving DecidableEq

/-- Lifecycle state (`ElectronVersionState` in `src/interfaces`, not under
`src/`).  Modelled from the spec: `state: {unknown, ready, ...}`; only the
two states this module assigns are needed. -/
inductive ElectronVersionState
  | ready
  | unknown
deriving DecidableEq

/-- A version record as a structural JavaScript object: the union of the
fields read anywhere in `versions.ts` (`NpmVersion`, `ElectronVersion` and
the pre-0.5 legacy shape).  A field the object does not carry is `none`. -/
structure NpmVersion where
  version : Option String := none
  name : Option String := none
  localPath : Option String := none
  tag_name : Option String := none
  url : Option String := none
  source : Option ElectronVersionSource := none
  state : Option ElectronVersionState := none
deriving DecidableEq

/-- `ElectronReleaseChannel` from `versions.ts`. -/
inductive ElectronReleaseChannel
  | stable
  | beta
  | nightly
  | unsupported
deriving DecidableEq

/-- One `localStorage` slot after `getItem` and, when applicable,
`JSON.parse`: the key is absent, holds the empty string (falsy, so the code
never parses it), holds a non-empty string that `JSON.parse` rejects, or
parses to an array of record objects. -/
inductive StoredVal
  | absent
  | emptyStr
  | parseFail
  | parsed (records : List NpmVersion)
deriving DecidableEq

/-- `VersionKeys` from `versions.ts`.  The TypeScript member `local` is a
Lean keyword, hence `localKey`. -/
inductive VersionKeys
  | localKey
  | known
deriving DecidableEq

/-- The `localStorage` keys this module touches: `'version'` (the remembered
default selection, a raw string) and the two collection keys. -/
structure Store where
  versionSlot : Option String := none
  knownSlot : StoredVal := .absent
  localSlot : StoredVal := .absent
deriving DecidableEq

/-- `isExpectedFormat`: every entry has a truthy `version` field. -/
def isExpectedFormat (input : List NpmVersion) : Bool :=
  input.all (fun entry => jsTruthy entry.version)

/-- `migrateVersions`: keep entries whose `tag_name`, `name` and `url` are
all truthy and re-shape them; the TypeScript `.map` to `null`-or-object
followed by `.filter(item => !!item)` is `List.filterMap` (the leading
`.filter(item => !!item)` only drops JSON `null` array elements, which are
outside this object-only model). -/
def migrateVersions (input : List NpmVersion) : List NpmVersion :=
  input.filterMap (fun item =>
    if jsTruthy item.tag_name && jsTruthy item.name && jsTruthy item.url then
      some { version := item.tag_name, name := item.name, localPath := item.url }
    else
      none)

/-- Modelled from the spec: the Version Normalizer (`normalizeVersion` in
`src/utils/normalize-version`, a module of this repository not included
under `src/`): cleans a raw tag by stripping an incidental `v` prefix and
yields `none` when nothing version-like remains.  Every theorem about the
Default Selector is quantified over the normalizer, so none of them depends
on this model; it only provides concrete instances for witnesses. -/
def normalizeVersion (raw : String) : Option String :=
  let cleaned := if raw.data.head? = some 'v' then String.mk raw.data.tail else raw
  if cleaned = "" then none else some cleaned

/-- `getDefaultVersion`: resolves the default selection from the remembered
`'version'` slot and the given known list, parameterized by the normalizer.
`Except.ok v` models a normal return of the JavaScript value `v`
(`ok none` would be returning `undefined`, possible when
`knownVersions[0].version` is `undefined` in branch three); `Except.error`
models `throw new Error('Corrupted version data')`. -/
def getDefaultVersion (normalize : String → Option String) (st : Store)
    (knownVersions : List NpmVersion) : Except String (Option String) :=
  let ls := st.versionSlot
  if jsTruthy ls && (knownVersions.find? (fun r => r.version == ls)).isSome then
    Except.ok ls
  else
    let normalized := if jsTruthy ls then normalize (ls.getD "") else none
    if jsTruthy normalized &&
        (knownVersions.find? (fun r => r.version == normalized)).isSome then
      Except.ok normalized
    else
      match knownVersions with
      | r :: _ =>
        if jsTruthy ls then Except.ok r.version
        else if jsTruthy r.version then Except.ok r.version
        else Except.error "Corrupted version data"
      | [] => Except.error "Corrupted version data"

/-- Character-list helper: does the second list start with the first? -/
def charsHavePre : List Char → List Char → Bool
  | [], _ => true
  | _ :: _, [] => false
  | p :: ps, c :: cs => p == c && charsHavePre ps cs

/-- Character-list helper: does the pattern occur contiguously in the
list? -/
def charsContain (pat : List Char) : List Char → Bool
  | [] => charsHavePre pat []
  | c :: cs => charsHavePre pat (c :: cs) || charsContain pat cs

/-- JavaScript `s.includes(pat)`: contiguous-substring test. -/
def strIncludes (s pat : String) : Bool :=
  charsContain pat.data s.data

/-- `getReleaseChannel`: substring markers checked in a fixed priority
order on `input.version || ''`. -/
def getReleaseChannel (input : NpmVersion) : ElectronReleaseChannel :=
  let tag := jsOr input.version ""
  if strIncludes tag "beta" then ElectronReleaseChannel.beta
  else if strIncludes tag "nightly" then ElectronReleaseChannel.nightly
  else if strIncludes tag "unsupported" then ElectronReleaseChannel.unsupported
  else ElectronReleaseChannel.stable

/-- `isElectronVersion`: the `source` field is defined. -/
def isElectronVersion (input : NpmVersion) : Bool :=
  input.source.isSome

/-- `saveVersions`: `setItem(key, JSON.stringify(versions))`; stringify of a
record-object list round-trips through parse, so the slot becomes
`StoredVal.parsed versions`. -/
def saveVersions (key : VersionKeys) (versions : List NpmVersion) (st : Store) :
    Store :=
  match key with
  | .known => { st with knownSlot := StoredVal.parsed versions }
  | .localKey => { st with localSlot := StoredVal.parsed versions }

/-- `saveLocalVersions`: drop records whose defined `source` is not
`local`, then save under the local key. -/
def saveLocalVersions (versions : List NpmVersion) (st : Store) : Store :=
  let filteredVersions := versions.filter (fun v =>
    if isElectronVersion v then v.source == some ElectronVersionSource.localSrc
    else true)
  saveVersions VersionKeys.localKey filteredVersions st

/-- `getVersions`: read the slot for `key`; a parsed array that passes the
format check is returned as-is; on failure, the `known` key throws inside
the `try` (caught, falling through to the fallback) while the `local` key
migrates, persists the migrated list and returns it; everything else
(absent key, empty string, parse failure) yields the fallback.  The
TypeScript fallback is a thunk; both call sites pass effect-free thunks, so
it is a plain list here. -/
def getVersions (key : VersionKeys) (fallbackMethod : List NpmVersion)
    (st : Store) : List NpmVersion × Store :=
  let fromLs := match key with
    | .known => st.knownSlot
    | .localKey => st.localSlot
  match fromLs with
  | .parsed result =>
    if isExpectedFormat result then
      (result, st)
    else
      match key with
      | .known => (fallbackMethod, st)
      | .localKey =>
        let migrated := migrateVersions result
        (migrated, saveLocalVersions migrated st)
  | .parseFail => (fallbackMethod, st)
  | .emptyStr => (fallbackMethod, st)
  | .absent => (fallbackMethod, st)

/-- `getLocalVersions`: load the local collection with the empty-list
fallback. -/
def getLocalVersions (st : Store) : List NpmVersion × Store :=
  getVersions VersionKeys.localKey [] st

/-- `getKnownVersions`: load the known collection, falling back to the
bundled `static/releases.json` snapshot (a build-time asset not under
`src/`, passed in as `releasesJson`). -/
def getKnownVersions (releasesJson : List NpmVersion) (st : Store) :
    List NpmVersion × Store :=
  getVersions VersionKeys.known releasesJson st

/-- `saveKnownVersions`. -/
def saveKnownVersions (versions : List NpmVersion) (st : Store) : Store :=
  saveVersions VersionKeys.known versions st

/-- `getElectronVersions`: known records tagged `remote`/`unknown` followed
by local records tagged `local`/`ready`. -/
def getElectronVersions (releasesJson : List NpmVersion) (st : Store) :
    List NpmVersion × Store :=
  let knownPair := getKnownVersions releasesJson st
  let known := knownPair.1.map (fun version =>
    { version with source := some ElectronVersionSource.remote,
                   state := some ElectronVersionState.unknown })
  let localPair := getLocalVersions knownPair.2
  let localList := localPair.1.map (fun version =>
    { version with source := some ElectronVersionSource.localSrc,
                   state := some ElectronVersionState.ready })
  (known ++ localList, localPair.2)

/-- `addLocalVersion`: append `input` unless some loaded local entry has
the same `localPath` (JavaScript `===` on possibly-`undefined` strings is
`Option` equality), persist through `saveLocalVersions`, return the list. -/
def addLocalVersion (input : NpmVersion) (st : Store) :
    List NpmVersion × Store :=
  let pair := getLocalVersions st
  let versions :=
    if (pair.1.find? (fun v => v.localPath == input.localPath)).isSome then
      pair.1
    else
      pair.1 ++ [input]
  (versions, saveLocalVersions versions pair.2)

/-! Helper lemmas shared by the claim theorems. -/

lemma jsTruthy_some (l : String) (h : l ≠ "") : jsTruthy (some l) = true := by
  simp [jsTruthy, bne_iff_ne, h]

lemma localPass_of_ne_remote (v : NpmVersion)
    (h : v.source ≠ some ElectronVersionSource.remote) :
    (if isElectronVersion v then
      v.source == some ElectronVersionSource.localSrc else true) = true := by
  cases hs : v.source with
  | none => simp [isElectronVersion, hs]
  | some s =>
    cases s with
    | remote => exact absurd hs h
    | localSrc => simp [isElectronVersion, hs]

lemma saveLocalVersions_localSlot_of_pass (versions : List NpmVersion)
    (st : Store)
    (h : ∀ v ∈ versions, v.source ≠ some ElectronVersionSource.remote) :
    saveLocalVersions versions st =
      { st with localSlot := StoredVal.parsed versions } := by
  simp only [saveLocalVersions, saveVersions]
  rw [List.filter_eq_self.mpr (fun v hv => localPass_of_ne_remote v (h v hv))]

lemma migrateVersions_source_none (input : List NpmVersion) :
    ∀ v ∈ migrateVersions input, v.source = none := by
  intro v hv
  obtain ⟨a, _, ha⟩ := List.mem_filterMap.mp hv
  split at ha
  · cases ha
    rfl
  · cases ha

lemma saveLocalVersions_migrateVersions (input : List NpmVersion) (st : Store) :
    saveLocalVersions (migrateVersions input) st =
      { st with localSlot := StoredVal.parsed (migrateVersions input) } := by
  apply saveLocalVersions_localSlot_of_pass
  intro v hv
  rw [migrateVersions_source_none input v hv]
  exact Option.noConfusion

lemma isExpectedFormat_migrateVersions (input : List NpmVersion) :
    isExpectedFormat (migrateVersions input) = true := by
  induction input with
  | nil => rfl
  | cons a l ih =>
    simp only [migrateVersions, List.filterMap_cons] at ih ⊢
    split
    · exact ih
    · rename_i b heq
      split at heq
      · rename_i hc
        cases heq
        simp only [isExpectedFormat, List.all_cons, Bool.and_eq_true] at ih ⊢
        refine ⟨?_, ih⟩
        exact ((Bool.and_eq_true _ _).mp ((Bool.and_eq_true _ _).mp hc).1).1
      · cases heq

lemma migrateVersions_eq_filter_map (input : List NpmVersion) :
    migrateVersions input =
      (input.filter (fun item =>
        jsTruthy item.tag_name && jsTruthy item.name && jsTruthy item.url)).map
        (fun item => { version := item.tag_name, name := item.name,
                       localPath := item.url }) := by
  induction input with
  | nil => rfl
  | cons a l ih =>
    simp only [migrateVersions, List.filterMap_cons, List.filter_cons] at ih ⊢
    by_cases h : (jsTruthy a.tag_name && jsTruthy a.name && jsTruthy a.url) = true
    · rw [if_pos h, if_pos h, List.map_cons]
      exact congrArg _ ih
    · rw [if_neg h, if_neg h]
      exact ih

/-- C3: for every list of legacy-shaped records, saving the local
collection with the migrated list and then loading the local collection
returns exactly that migrated list, unchanged (and leaves the store as the
save wrote it): the self-heal round-trip is idempotent. -/
theorem saveLocal_migrate_roundTrip (legacyList : List NpmVersion)
    (st : Store) :
    getLocalVersions (saveLocalVersions (migrateVersions legacyList) st) =
      (migrateVersions legacyList,
       saveLocalVersions (migrateVersions legacyList) st) := by
  rw [saveLocalVersions_migrateVersions]
  simp [getLocalVersions, getVersions, isExpectedFormat_migrateVersions]

/-- C5: getElectronVersions returns the known records tagged
remote/unknown followed by the local records tagged local/ready, order
within each collection preserved, with no deduplication between the two
collections — concretely, a version string stored in both collections
yields two entries. -/
theorem getElectronVersions_concat_tagged :
    (∀ (releasesJson : List NpmVersion) (st : Store),
      (getElectronVersions releasesJson st).1 =
        (getKnownVersions releasesJson st).1.map (fun v =>
          { v with source := some ElectronVersionSource.remote,
                   state := some ElectronVersionState.unknown })
        ++ (getLocalVersions (getKnownVersions releasesJson st).2).1.map
          (fun v =>
            { v with source := some ElectronVersionSource.localSrc,
                     state := some ElectronVersionState.ready })) ∧
    (getElectronVersions []
        { versionSlot := none,
          knownSlot := StoredVal.parsed [{ version := some "1.0.0" }],
          localSlot := StoredVal.parsed
            [{ version := some "1.0.0", localPath := some "/x" }] }).1 =
      [{ version := some "1.0.0",
         source := some ElectronVersionSource.remote,
         state := some ElectronVersionState.unknown },
       { version := some "1.0.0", localPath := some "/x",
         source := some ElectronVersionSource.localSrc,
         state := some ElectronVersionState.ready }] :=
  ⟨fun _ _ => rfl, by rfl⟩

/-- C7: saveLocalVersions persists under the local key exactly the records
whose provenance tag is local or absent, in order; remote-tagged records
are discarded before the write and nothing else in the store changes. -/
theorem saveLocalVersions_filters_remote (versions : List NpmVersion)
    (st : Store) :
    saveLocalVersions versions st =
      { st with localSlot := StoredVal.parsed (versions.filter (fun v =>
          v.source == some ElectronVersionSource.localSrc ||
          v.source == none)) } := by
  have h : versions.filter (fun v =>
        if isElectronVersion v then
          v.source == some ElectronVersionSource.localSrc else true) =
      versions.filter (fun v =>
        v.source == some ElectronVersionSource.localSrc ||
        v.source == none) := by
    apply List.filter_congr
    intro v _
    cases hs : v.source with
    | none => simp [isElectronVersion, hs]
    | some s => cases s <;> simp [isElectronVersion, hs]
  simp only [saveLocalVersions, saveVersions]
  rw [h]

/-- C8: migrateVersions drops each entry with a missing (falsy) tag_name,
name or url and maps every remaining entry to the current shape
(version := tag_name, name, localPath := url) preserving order, and the
spec's concrete example evaluates to exactly the one surviving record. -/
theorem migrateVersions_drop_and_map :
    (∀ input : List NpmVersion,
      migrateVersions input =
        (input.filter (fun item =>
          jsTruthy item.tag_name && jsTruthy item.name &&
          jsTruthy item.url)).map
          (fun item => { version := item.tag_name, name := item.name,
                         localPath := item.url })) ∧
    migrateVersions
        [{ tag_name := some "v1.0.0", name := some "One", url := some "/a" },
         {}, { tag_name := some "v2.0.0" }] =
      [{ version := some "v1.0.0", name := some "One",
         localPath := some "/a" }] :=
  ⟨migrateVersions_eq_filter_map, by rfl⟩

/-- C9: getReleaseChannel classifies by substring markers on the version
tag in the fixed priority beta, nightly, unsupported, stable; when several
markers occur the first in this order wins, and the spec's examples
evaluate accordingly. -/
theorem getReleaseChannel_priority :
    (∀ input : NpmVersion,
      (strIncludes (jsOr input.version "") "beta" = true →
        getReleaseChannel input = ElectronReleaseChannel.beta) ∧
      (strIncludes (jsOr input.version "") "beta" = false →
        strIncludes (jsOr input.version "") "nightly" = true →
        getReleaseChannel input = ElectronReleaseChannel.nightly) ∧
      (strIncludes (jsOr input.version "") "beta" = false →
        strIncludes (jsOr input.version "") "nightly" = false →
        strIncludes (jsOr input.version "") "unsupported" = true →
        getReleaseChannel input = ElectronReleaseChannel.unsupported) ∧
      (strIncludes (jsOr input.version "") "beta" = false →
        strIncludes (jsOr input.version "") "nightly" = false →
        strIncludes (jsOr input.version "") "unsupported" = false →
        getReleaseChannel input = ElectronReleaseChannel.stable)) ∧
    getReleaseChannel { version := some "10.0.0-beta.1" } =
      ElectronReleaseChannel.beta ∧
    getReleaseChannel { version := some "10.0.0-nightly.1" } =
      ElectronReleaseChannel.nightly ∧
    getReleaseChannel { version := some "10.0.0" } =
      ElectronReleaseChannel.stable ∧
    getReleaseChannel { version := some "9.0.0-nightly-beta" } =
      ElectronReleaseChannel.beta := by
  refine ⟨fun input => ⟨?_, ?_, ?_, ?_⟩, by rfl, by rfl, by rfl, by rfl⟩
  · intro h1
    simp [getReleaseChannel, h1]
  · intro h1 h2
    simp [getReleaseChannel, h1, h2]
  · intro h1 h2 h3
    simp [getReleaseChannel, h1, h2, h3]
  · intro h1 h2 h3
    simp [getReleaseChannel, h1, h2, h3]

/-- C9 witness: the priority theorem applied to a concrete nightly
record, with the beta check discharged as false. -/
theorem getReleaseChannel_priority_witness :
    getReleaseChannel { version := some "11.0.0-nightly.2" } =
      ElectronReleaseChannel.nightly :=
  (getReleaseChannel_priority.1 { version := some "11.0.0-nightly.2" }).2.1
    (by rfl) (by rfl)

/-- C2: a persisted collection that parses but fails the format check is
handled asymmetrically by key: under the known key the bundled fallback is
returned and the store untouched (no migration), while under the local key
the legacy-migrated list is persisted in place and returned. -/
theorem getVersions_invalid_asymmetry (rs releasesJson : List NpmVersion)
    (st : Store) (h : isExpectedFormat rs = false) :
    getKnownVersions releasesJson { st with knownSlot := StoredVal.parsed rs } =
      (releasesJson, { st with knownSlot := StoredVal.parsed rs }) ∧
    getLocalVersions { st with localSlot := StoredVal.parsed rs } =
      (migrateVersions rs,
       { st with localSlot := StoredVal.parsed (migrateVersions rs) }) := by
  constructor
  · simp [getKnownVersions, getVersions, h]
  · simp [getLocalVersions, getVersions, h, saveLocalVersions_migrateVersions]

/-- C2 witness: the invalid collection consisting of one empty object makes
the known key fall back to the bundled list with the store untouched, and
the local key persist and return the migrated (here empty) list. -/
theorem getVersions_invalid_asymmetry_witness :
    isExpectedFormat [{}] = false ∧
    (getKnownVersions [{ version := some "3.0.0" }]
        { knownSlot := StoredVal.parsed [{}] } =
      ([{ version := some "3.0.0" }],
       { knownSlot := StoredVal.parsed [{}] }) ∧
     getLocalVersions { localSlot := StoredVal.parsed [{}] } =
      ([], { localSlot := StoredVal.parsed [] })) :=
  ⟨by rfl,
   getVersions_invalid_asymmetry [{}] [{ version := some "3.0.0" }] {}
     (by rfl)⟩

/-- C6: addLocalVersion appends the given record to the loaded local list
exactly when no loaded entry shares its localPath (dedup key localPath,
not version), and persists the resulting full list verbatim under the
local key; the hypotheses say the record and the loaded entries carry no
remote provenance tag, i.e. they are raw or local records. -/
theorem addLocalVersion_dedup_by_localPath (input : NpmVersion) (st : Store)
    (h1 : input.source ≠ some ElectronVersionSource.remote)
    (h2 : ∀ v ∈ (getLocalVersions st).1,
      v.source ≠ some ElectronVersionSource.remote) :
    (addLocalVersion input st).1 =
      (if ((getLocalVersions st).1.find? (fun v =>
            v.localPath == input.localPath)).isSome then
        (getLocalVersions st).1
      else
        (getLocalVersions st).1 ++ [input]) ∧
    (addLocalVersion input st).2.localSlot =
      StoredVal.parsed (addLocalVersion input st).1 := by
  have hmem : ∀ v ∈ (addLocalVersion input st).1,
      v.source ≠ some ElectronVersionSource.remote := by
    intro v hv
    simp only [addLocalVersion] at hv
    split at hv
    · exact h2 v hv
    · rcases List.mem_append.mp hv with hm | hm
      · exact h2 v hm
      · rw [List.mem_singleton.mp hm]
        exact h1
  constructor
  · rfl
  · have hsave := saveLocalVersions_localSlot_of_pass
      (addLocalVersion input st).1 (getLocalVersions st).2 hmem
    exact congrArg Store.localSlot hsave

/-- C6 witness: adding a record whose localPath "/x" is already present,
with a different version, leaves the loaded singleton unchanged and
persists it verbatim. -/
theorem addLocalVersion_dedup_by_localPath_witness :
    (addLocalVersion { version := some "2.0.0", localPath := some "/x" }
        { localSlot := StoredVal.parsed
            [{ version := some "1.0.0", localPath := some "/x" }] }).1 =
      [{ version := some "1.0.0", localPath := some "/x" }] ∧
    (addLocalVersion { version := some "2.0.0", localPath := some "/x" }
        { localSlot := StoredVal.parsed
            [{ version := some "1.0.0", localPath := some "/x" }] }).2.localSlot =
      StoredVal.parsed [{ version := some "1.0.0", localPath := some "/x" }] := by
  have h := addLocalVersion_dedup_by_localPath
    { version := some "2.0.0", localPath := some "/x" }
    { localSlot := StoredVal.parsed
        [{ version := some "1.0.0", localPath := some "/x" }] }
    (by simp) (by decide)
  exact ⟨h.1.trans (by decide), h.2.trans (by decide)⟩

lemma exists_mem_version_of_find? (ks : List NpmVersion) (o : Option String)
    (h : (ks.find? (fun x => x.version == o)).isSome = true) :
    ∃ r ∈ ks, r.version = o := by
  obtain ⟨r, hr⟩ := Option.isSome_iff_exists.mp h
  refine ⟨r, List.mem_of_find?_eq_some hr, ?_⟩
  simpa using List.find?_some hr

lemma getDefaultVersion_isOk_of_head (normalize : String → Option String)
    (st : Store) (r : NpmVersion) (t : List NpmVersion)
    (hr : jsTruthy r.version = true) :
    ∃ w, getDefaultVersion normalize st (r :: t) = Except.ok w := by
  simp only [getDefaultVersion]
  repeat' split
  all_goals exact ⟨_, rfl⟩

/-- C1 counterexample: with a remembered selection stored ("garbage") and
an empty known list, getDefaultVersion raises the corrupted-state error
instead of returning a value, refuting the claimed equivalence. -/
theorem getDefaultVersion_emptyList_remembered_raises :
    getDefaultVersion normalizeVersion { versionSlot := some "garbage" } [] =
      Except.error "Corrupted version data" := by
  rfl

/-- C1 (amended): over a validated known list (every record's version
field truthy), getDefaultVersion raises the corrupted-state error exactly
when the list is empty — whether or not a remembered selection is stored —
and this holds for every normalizer. -/
theorem getDefaultVersion_error_iff_empty (normalize : String → Option String)
    (st : Store) (ks : List NpmVersion)
    (hValid : isExpectedFormat ks = true) :
    (∃ e, getDefaultVersion normalize st ks = Except.error e) ↔ ks = [] := by
  cases ks with
  | nil => simp [getDefaultVersion]
  | cons r t =>
    simp only [isExpectedFormat, List.all_cons, Bool.and_eq_true] at hValid
    constructor
    · rintro ⟨e, he⟩
      obtain ⟨w, hw⟩ := getDefaultVersion_isOk_of_head normalize st r t hValid.1
      rw [hw] at he
      exact Except.noConfusion he
    · intro hcontra
      exact List.noConfusion hcontra

/-- C1 amended witness: the validated empty list with a stored remembered
selection raises. -/
theorem getDefaultVersion_error_iff_empty_witness :
    isExpectedFormat [] = true ∧
    (∃ e, getDefaultVersion normalizeVersion
      { versionSlot := some "garbage" } [] = Except.error e) :=
  ⟨rfl, (getDefaultVersion_error_iff_empty normalizeVersion
    { versionSlot := some "garbage" } [] rfl).mpr rfl⟩

/-- C4: resolution order of getDefaultVersion over a validated known list,
for every normalizer: an exact remembered match is returned as stored;
otherwise a normalized remembered match is returned in normalized form;
otherwise a stored-but-unmatched remembered selection falls back to the
first record's version when the list is non-empty. -/
theorem getDefaultVersion_resolution_order (normalize : String → Option String)
    (st : Store) (ks : List NpmVersion)
    (hValid : isExpectedFormat ks = true) :
    (∀ l, st.versionSlot = some l → l ≠ "" →
      (ks.find? (fun x => x.version == some l)).isSome = true →
      getDefaultVersion normalize st ks = Except.ok (some l)) ∧
    (∀ l n, st.versionSlot = some l → l ≠ "" →
      (ks.find? (fun x => x.version == some l)).isSome = false →
      normalize l = some n →
      (ks.find? (fun x => x.version == some n)).isSome = true →
      getDefaultVersion normalize st ks = Except.ok (some n)) ∧
    (∀ l r t, st.versionSlot = some l → l ≠ "" → ks = r :: t →
      (ks.find? (fun x => x.version == some l)).isSome = false →
      (∀ n, normalize l = some n →
        (ks.find? (fun x => x.version == some n)).isSome = false) →
      getDefaultVersion normalize st ks = Except.ok r.version) := by
  refine ⟨?_, ?_, ?_⟩
  · intro l hls hne hfind
    simp [getDefaultVersion, hls, jsTruthy_some l hne, hfind]
  · intro l n hls hne hfind1 hnorm hfind2
    obtain ⟨r', hr'⟩ := Option.isSome_iff_exists.mp hfind2
    have hrv : r'.version = some n := by
      have := List.find?_some hr'
      simpa using this
    have hnne : n ≠ "" := by
      have hall := List.all_eq_true.mp hValid r' (List.mem_of_find?_eq_some hr')
      rw [hrv] at hall
      simpa [jsTruthy, bne_iff_ne] using hall
    simp [getDefaultVersion, hls, jsTruthy_some l hne, hfind1, hnorm,
      jsTruthy_some n hnne, hfind2]
  · intro l r t hls hne hks hfind1 hnone
    subst hks
    simp only [getDefaultVersion, hls, Option.getD_some, jsTruthy_some l hne,
      Bool.true_and, hfind1, Bool.false_eq_true, if_false, if_true]
    cases hnz : normalize l with
    | none => simp [jsTruthy]
    | some n =>
      by_cases hn : n = ""
      · simp [hn, jsTruthy]
      · simp [jsTruthy_some n hn, hnone n hnz]

/-- C4 witness: the spec example: remembered "garbage" matches nothing,
also after normalization, so the first known version "2.0.0" is
returned. -/
theorem getDefaultVersion_resolution_order_witness :
    getDefaultVersion normalizeVersion { versionSlot := some "garbage" }
      [{ version := some "2.0.0" }, { version := some "1.0.0" }] =
      Except.ok (some "2.0.0") :=
  (getDefaultVersion_resolution_order normalizeVersion
    { versionSlot := some "garbage" }
    [{ version := some "2.0.0" }, { version := some "1.0.0" }]
    (by decide)).2.2
    "garbage" { version := some "2.0.0" } [{ version := some "1.0.0" }]
    rfl (by decide) rfl (by decide)
    (fun n hn => by
      injection hn with hn
      subst hn
      decide)

/-- C10: whenever getDefaultVersion returns without raising, the returned
value is the version field of some record of the given known list, for
every normalizer and store. -/
theorem getDefaultVersion_returns_member (normalize : String → Option String)
    (st : Store) (ks : List NpmVersion) (v : Option String)
    (h : getDefaultVersion normalize st ks = Except.ok v) :
    ∃ r ∈ ks, r.version = v := by
  cases ks with
  | nil => simp [getDefaultVersion] at h
  | cons r t =>
    simp only [getDefaultVersion] at h
    by_cases h1 : (jsTruthy st.versionSlot &&
        (List.find? (fun x => x.version == st.versionSlot) (r :: t)).isSome) =
        true
    · rw [if_pos h1] at h
      rw [← Except.ok.inj h]
      exact exists_mem_version_of_find? (r :: t) st.versionSlot
        ((Bool.and_eq_true _ _).mp h1).2
    · rw [if_neg h1] at h
      by_cases h2 : jsTruthy st.versionSlot = true
      · rw [if_pos h2] at h
        by_cases h3 : (jsTruthy (normalize (st.versionSlot.getD "")) &&
            (List.find? (fun x => x.version ==
              normalize (st.versionSlot.getD "")) (r :: t)).isSome) = true
        · rw [if_pos h3] at h
          rw [← Except.ok.inj h]
          exact exists_mem_version_of_find? (r :: t) _
            ((Bool.and_eq_true _ _).mp h3).2
        · rw [if_neg h3] at h
          rw [if_pos h2] at h
          exact ⟨r, List.mem_cons_self r t, Except.ok.inj h⟩
      · rw [if_neg h2] at h
        have hnone : jsTruthy (none : Option String) = false := rfl
        rw [hnone, Bool.false_and] at h
        rw [if_neg Bool.false_ne_true] at h
        rw [if_neg h2] at h
        by_cases h4 : jsTruthy r.version = true
        · rw [if_pos h4] at h
          exact ⟨r, List.mem_cons_self r t, Except.ok.inj h⟩
        · rw [if_neg h4] at h
          exact Except.noConfusion h

/-- C10 witness: at a concrete store with no remembered selection the
returned default "1.0.0" is the version of a member of the list. -/
theorem getDefaultVersion_returns_member_witness :
    ∃ r ∈ [({ version := some "1.0.0" } : NpmVersion)],
      r.version = some "1.0.0" :=
  getDefaultVersion_returns_member normalizeVersion {}
    [{ version := some "1.0.0" }] (some "1.0.0") (by rfl)

end Fiddle
